import Mathlib

/-!
Verification of the quiz-extraction heuristic of `html_to_json_parser.py`.

The development shallowly embeds the function `extract_quiz_data` (and the
helper `clean_text`) over an explicit element-tree model.  The element tree
corresponds to the navigable tree that BeautifulSoup hands to the code;
nodes are addressed by their position path from the root so that parent,
sibling and descendant navigation (`find_parent`, `find_next_sibling`,
`find_all`, `find`) can be expressed exactly.  Every definition follows the
Python source line by line; the few places where a Python library primitive
is modelled (rather than transcribed) carry a doc comment saying so.
-/

/-! ## Character and string primitives -/

/-- Whitespace as used by Python `str.strip` and the regex class `\s`,
restricted to the characters that actually occur in HTML text: space, tab,
newline, carriage return, vertical tab, form feed and no-break space. -/
def pySpace (c : Char) : Bool :=
  c = ' ' || c = '\t' || c = '\n' || c = '\r' ||
  c = '\x0b' || c = '\x0c' || c = ' '

/-- Python `str.strip()` on a character list. -/
def pyStripChars (l : List Char) : List Char :=
  ((l.dropWhile pySpace).reverse.dropWhile pySpace).reverse

/-- Python `str.rstrip()` on a character list. -/
def pyRStripChars (l : List Char) : List Char :=
  (l.reverse.dropWhile pySpace).reverse

/-- One pass of `re.sub(r'\s+', ' ', text)`: every maximal whitespace run
is replaced by a single space.  The flag records whether the previous
character was part of a whitespace run. -/
def collapseAux : Bool → List Char → List Char
  | _, [] => []
  | inRun, c :: cs =>
    if pySpace c then
      if inRun then collapseAux true cs else ' ' :: collapseAux true cs
    else c :: collapseAux false cs

def collapseWs (l : List Char) : List Char := collapseAux false l

/-- Recognise one HTML character entity right after an ampersand.  Model of
the entity lookup inside Python `html.unescape`, restricted to the core
named entities (the full HTML5 entity table is not reproduced); returns the
decoded character and the remaining input. -/
def tryEntity (l : List Char) : Option (Char × List Char) :=
  if ("amp;".data).isPrefixOf l then some ('&', l.drop 4)
  else if ("lt;".data).isPrefixOf l then some ('<', l.drop 3)
  else if ("gt;".data).isPrefixOf l then some ('>', l.drop 3)
  else if ("quot;".data).isPrefixOf l then some ('"', l.drop 5)
  else if ("nbsp;".data).isPrefixOf l then some (' ', l.drop 5)
  else none

/-- Fuelled worker for `unescapeChars`; the fuel only serves termination
and never runs out when it starts at the input length, because every step
consumes at least one input character. -/
def unescapeAux : Nat → List Char → List Char
  | 0, l => l
  | _ + 1, [] => []
  | f + 1, c :: r =>
    if c = '&' then
      match tryEntity r with
      | some p => p.1 :: unescapeAux f p.2
      | none => '&' :: unescapeAux f r
    else c :: unescapeAux f r

/-- Model of Python `html.unescape`: decode character entities, leaving
unrecognised ampersand sequences untouched. -/
def unescapeChars (l : List Char) : List Char := unescapeAux l.length l

/-- `clean_text` from the source: decode HTML entities, collapse
whitespace runs to single spaces, and strip.  (The Python function returns
`""` for falsy input, which coincides with the computation on `[]`.) -/
def cleanTextChars (l : List Char) : List Char :=
  pyStripChars (collapseWs (unescapeChars l))

def clean_text (s : String) : String := String.mk (cleanTextChars s.data)

/-- Python `str.lower()` (ASCII case folding suffices for the keyword
tests performed by the source). -/
def lowerChars (l : List Char) : List Char := l.map Char.toLower

/-- Python substring containment `needle in hay`. -/
def containsSub (hay needle : List Char) : Bool :=
  hay.tails.any (fun t => needle.isPrefixOf t)

/-- `re.match(r'^\d+\.\s+', text)` viewed as a Boolean: one or more digits,
a dot, then at least one whitespace character. -/
def matchFullOrdinal (l : List Char) : Bool :=
  !(l.takeWhile Char.isDigit).isEmpty &&
    (match l.dropWhile Char.isDigit with
     | '.' :: c :: _ => pySpace c
     | _ => false)

/-- `re.match(r'^\d+\.\s*$', text)` viewed as a Boolean: one or more
digits, a dot, then nothing but whitespace until the end. -/
def matchBareOrdinal (l : List Char) : Bool :=
  !(l.takeWhile Char.isDigit).isEmpty &&
    (match l.dropWhile Char.isDigit with
     | '.' :: t => t.all pySpace
     | _ => false)

/-- Split a character list on whitespace, dropping empty tokens: how
BeautifulSoup turns a `class` attribute string into the class list. -/
def splitWsAux : List Char → List Char → List (List Char)
  | [], acc => if acc.isEmpty then [] else [acc.reverse]
  | c :: r, acc =>
    if pySpace c then
      if acc.isEmpty then splitWsAux r [] else acc.reverse :: splitWsAux r []
    else splitWsAux r (c :: acc)

def splitWs (l : List Char) : List (List Char) := splitWsAux l []

/-- Split on newline characters, keeping empty segments: Python
`str.split('\n')`. -/
def splitNlAux : List Char → List Char → List (List Char)
  | [], acc => [acc.reverse]
  | c :: r, acc =>
    if c = '\n' then acc.reverse :: splitNlAux r [] else splitNlAux r (c :: acc)

def splitNl (l : List Char) : List (List Char) := splitNlAux l []

/-- Python `' '.join`. -/
def joinWithSpace : List (List Char) → List Char
  | [] => []
  | [x] => x
  | x :: y :: t => x ++ ' ' :: joinWithSpace (y :: t)

/-- Python `'\n'.join`. -/
def joinWithNl : List (List Char) → List Char
  | [] => []
  | [x] => x
  | x :: y :: t => x ++ '\n' :: joinWithNl (y :: t)

/-! ## The element tree -/

/-- A parsed markup node: either a text node or an element with a tag
name, an attribute list and children.  This is the navigable tree the
source receives from BeautifulSoup. -/
inductive HNode where
  | text : String → HNode
  | elem : String → List (String × String) → List HNode → HNode

/-- Position of a node inside the root: the list of child indices on the
way down.  Two distinct positions are distinct nodes even when the
subtrees are equal, matching Python object identity. -/
abbrev NPath := List Nat

def HNode.children : HNode → List HNode
  | .text _ => []
  | .elem _ _ cs => cs

def HNode.isElem : HNode → Bool
  | .text _ => false
  | .elem _ _ _ => true

/-- Node addressed by a path, if the path is valid. -/
def getAt : HNode → NPath → Option HNode
  | t, [] => some t
  | .text _, _ :: _ => none
  | .elem _ _ cs, i :: p =>
    match cs[i]? with
    | some c => getAt c p
    | none => none

mutual
/-- Concatenated text of all descendant text nodes: `get_text()`. -/
def getTextChars : HNode → List Char
  | .text s => s.data
  | .elem _ _ cs => getTextCharsL cs

def getTextCharsL : List HNode → List Char
  | [] => []
  | c :: cs => getTextChars c ++ getTextCharsL cs
end

mutual
/-- Paths of all proper descendants of a node, in document (pre-)order. -/
def preorder : HNode → List NPath
  | .text _ => []
  | .elem _ _ cs => preorderL 0 cs

def preorderL : Nat → List HNode → List NPath
  | _, [] => []
  | i, c :: cs => [i] :: ((preorder c).map (i :: ·) ++ preorderL (i + 1) cs)
end

def tagAt (root : HNode) (p : NPath) : Option String :=
  match getAt root p with
  | some (.elem t _ _) => some t
  | _ => none

def textAt (root : HNode) (p : NPath) : List Char :=
  match getAt root p with
  | some n => getTextChars n
  | none => []

/-- Attribute lookup `node.get(key)` (first binding wins). -/
def attrAt (root : HNode) (p : NPath) (key : String) : Option String :=
  match getAt root p with
  | some (.elem _ attrs _) => (attrs.find? (fun a => a.1 = key)).map (·.2)
  | _ => none

/-- The multi-valued `class` attribute, as BeautifulSoup presents it. -/
def classesAt (root : HNode) (p : NPath) : List String :=
  match attrAt root p "class" with
  | some s => (splitWs s.data).map String.mk
  | none => []

/-- `find_all(tags)` on a subtree value: proper-descendant paths whose tag
is in `tags`, in document order. -/
def findAllTags (t : HNode) (tags : List String) : List NPath :=
  (preorder t).filter (fun p =>
    match getAt t p with
    | some (.elem tg _ _) => tags.contains tg
    | _ => false)

/-- `element.find_all(tags)` for the element at `base` inside `root`. -/
def subtreeFindAll (root : HNode) (base : NPath) (tags : List String) : List NPath :=
  match getAt root base with
  | some n => (findAllTags n tags).map (fun q => base ++ q)
  | none => []

/-- `element.find(tags)`: first matching descendant in document order. -/
def subtreeFind (root : HNode) (base : NPath) (tags : List String) : Option NPath :=
  (subtreeFindAll root base tags).head?

/-- `element.find('strong') or element.find('b')` as used at several
places in the source. -/
def findStrongOrB (root : HNode) (base : NPath) : Option NPath :=
  match subtreeFind root base ["strong"] with
  | some q => some q
  | none => subtreeFind root base ["b"]

/-- Proper ancestors of a path, nearest first. -/
def ancestorPaths (p : NPath) : List NPath := (p.inits.dropLast).reverse

/-- `tag.find_parent(name)`: nearest ancestor element with that tag. -/
def findParentTag (root : HNode) (p : NPath) (tag : String) : Option NPath :=
  (ancestorPaths p).find? (fun q => tagAt root q = some tag)

/-- `element.find_next_sibling()` iterated: all later element siblings of
`p`, in document order (BeautifulSoup sibling search skips text nodes). -/
def elemSiblingsAfter (root : HNode) (p : NPath) : List NPath :=
  match p.getLast?, getAt root p.dropLast with
  | some i, some par =>
    ((par.children.enum.filter (fun c => decide (i < c.1) && c.2.isElem)).map
      (fun c => p.dropLast ++ [c.1]))
  | _, _ => []

/-- `element.next_sibling`: the immediately following sibling node of any
kind (text nodes included), if there is one. -/
def rawNextSibling (root : HNode) (p : NPath) : Option HNode :=
  match p.getLast?, getAt root p.dropLast with
  | some i, some par => par.children[i + 1]?
  | _, _ => none

/-! ## The output data model -/

/-- The `answer` value of a record: the Python code stores either a single
string or a list of strings under the `answer` key. -/
inductive QAnswer where
  | str : String → QAnswer
  | list : List String → QAnswer
deriving Repr, DecidableEq

/-- One emitted question record (`question_data` in the source).  Optional
fields model dictionary keys that are only sometimes set. -/
structure Record where
  question : String
  img : Option String := none
  pre : Option String := none
  type : Option String := none
  choices : Option (List String) := none
  answer : Option QAnswer := none
deriving Repr, DecidableEq

/-- The fixed image sentinel `"See image for the answer"`. -/
def imgSentinel : String := "See image for the answer"

/-- The primary special-type marker phrases (line 218 of the source). -/
def primaryKeywords : List String :=
  ["match", "question as presented", "refer to the exhibit",
   "place the options in the following order"]

/-- The secondary marker set checked when no correct answer was collected
(line 235 of the source). -/
def secondaryKeywords : List String :=
  ["match", "order", "drag and drop", "sequence"]

def lowerOf (s : String) : String := String.mk (lowerChars s.data)

/-- `any(keyword in text for keyword in keys)`. -/
def containsAny (s : String) (keys : List String) : Bool :=
  keys.any (fun k => containsSub s.data k.data)

/-! ## Anchor discovery (lines 59 to 91) -/

/-- `soup.find_all('p')`. -/
def allParagraphs (root : HNode) : List NPath := findAllTags root ["p"]

/-- The inner recovery loop for a tag inside a multi-emphasis paragraph
(lines 78 to 88): the tag is appended exactly when some position `i` of
the parent's emphasis children holds a bare-ordinal sibling that is the
tag itself and is not the last emphasis child. -/
def malformedRecovery (root : HNode) (tagP parentP : NPath) : Bool :=
  let sibs := subtreeFindAll root parentP ["strong", "b"]
  sibs.enum.any (fun is =>
    matchBareOrdinal (pyStripChars (textAt root is.2)) &&
    decide (is.1 + 1 < sibs.length) && is.2 = tagP)

/-- Lines 64 to 88: standalone `strong`/`b` tags.  A tag qualifies when
its stripped text matches the full ordinal pattern and it either has no
`p` ancestor or sits in a multi-emphasis paragraph satisfying the
recovery condition. -/
def standaloneTags (root : HNode) : List NPath :=
  (findAllTags root ["strong", "b"]).filter (fun p =>
    matchFullOrdinal (pyStripChars (textAt root p)) &&
    match findParentTag root p "p" with
    | none => true
    | some par =>
      decide (1 < (subtreeFindAll root par ["strong", "b"]).length) &&
      malformedRecovery root p par)

/-- Line 91: `all_elements = all_paragraphs + standalone_tags`. -/
def allElements (root : HNode) : List NPath :=
  allParagraphs root ++ standaloneTags root

/-! ## Per-anchor extraction (lines 93 to 243) -/

/-- Lines 98 to 103: the question tag of an element. -/
def questionTagOf (root : HNode) (e : NPath) : Option NPath :=
  match tagAt root e with
  | some "p" => findStrongOrB root e
  | some t => if t = "strong" || t = "b" then some e else none
  | none => none

/-- Lines 106 to 110: is the element a question anchor? -/
def isQuestion (root : HNode) (e : NPath) : Bool :=
  match questionTagOf root e with
  | some qt =>
    let t := pyStripChars (textAt root qt)
    matchFullOrdinal t || matchBareOrdinal t
  | none => false

/-- The initial question text (line 116): `clean_text` of the question
tag's text. -/
def initQuestionOf (root : HNode) (e : NPath) : Option String :=
  (questionTagOf root e).map (fun qt => String.mk (cleanTextChars (textAt root qt)))

/-- `element.find('img')` followed by the truthiness test on `src`
(lines 125 to 127): the source of the first descendant image, provided
that image has a non-empty `src`. -/
def imgSrcOf (root : HNode) (p : NPath) : Option String :=
  match subtreeFind root p ["img"] with
  | some ip =>
    match attrAt root ip "src" with
    | some s => if s = "" then none else some s
    | none => none
  | none => none

/-- Lines 119 to 138: image lookup in the current element (when it is a
paragraph) and then in up to two subsequent entries of `all_elements`. -/
def imgOf (root : HNode) (e : NPath) (rest : List NPath) : Option String :=
  let own := if tagAt root e = some "p" then imgSrcOf root e else none
  match own with
  | some s => some s
  | none =>
    (rest.take 2).findSome? (fun q =>
      if tagAt root q = some "p" then imgSrcOf root q else none)

/-- State of the forward sibling scan (lines 143 to 146), together with
the position of the list that ended the scan, recorded where the source
breaks out of the loop. -/
structure ScanState where
  choices : List String
  correct : List String
  parts : List String
  preC : Option String
  ulPath : Option NPath
deriving Repr

def initScan : ScanState :=
  { choices := [], correct := [], parts := [], preC := none, ulPath := none }

/-- Lines 161 to 166: is a list item a correct answer?  Either it has a
descendant `span`/`strong` whose `style` attribute contains `color:`, or
it carries the `correct_answer` class. -/
def styleHasColor (root : HNode) (p : NPath) : Bool :=
  match attrAt root p "style" with
  | some s => containsSub s.data "color:".data
  | none => false

def liCorrect (root : HNode) (li : NPath) : Bool :=
  (subtreeFindAll root li ["span", "strong"]).any (styleHasColor root) ||
  (classesAt root li).contains "correct_answer"

/-- Lines 153 to 166: the loop over the list items of the matched list. -/
def processLis (root : HNode) : List NPath → ScanState → ScanState
  | [], st => st
  | li :: rest, st =>
    let ct := cleanTextChars (textAt root li)
    if ct.isEmpty then processLis root rest st
    else
      processLis root rest
        { st with
          choices := st.choices ++ [String.mk ct],
          correct :=
            if liCorrect root li then st.correct ++ [String.mk ct]
            else st.correct }

/-- Lines 180 to 187: content of a `pre` block, line-split, stripped,
blank lines dropped, rejoined with newlines. -/
def preContentChars (raw : List Char) : List Char :=
  joinWithNl (((splitNl raw).map pyStripChars).filter (fun x => !x.isEmpty))

/-- Lines 148 to 192: the forward scan over the anchor's later element
siblings.  A `ul` ends the scan after collecting choices; a paragraph
whose emphasis text matches the full ordinal pattern ends it without
collecting; other recognised siblings update the state and continue. -/
def scanSibs (root : HNode) : List NPath → ScanState → ScanState
  | [], st => st
  | s :: rest, st =>
    let tg := (tagAt root s).getD ""
    if tg = "ul" then
      { processLis root (subtreeFindAll root s ["li"]) st with ulPath := some s }
    else if tg = "p" then
      match findStrongOrB root s with
      | some sb =>
        if matchFullOrdinal (pyStripChars (textAt root sb)) then st
        else
          scanSibs root rest
            { st with
              parts := st.parts ++ [String.mk (cleanTextChars (textAt root sb))] }
      | none => scanSibs root rest st
    else
      scanSibs root rest
        (if tg = "pre" && (st.preC.getD "").isEmpty then
          { st with preC := some (String.mk (preContentChars (textAt root s))) }
        else st)

/-- The scan result for an anchor. -/
def scanOf (root : HNode) (e : NPath) : ScanState :=
  scanSibs root (elemSiblingsAfter root e) initScan

/-- Lines 194 to 210: question text assembly.  With more than one part,
parts are joined by single spaces, bare-ordinal parts right-stripped
first.  With a single bare-ordinal part on a standalone emphasis anchor,
the immediately following sibling emphasis text is appended. -/
def joinParts (parts : List String) : String :=
  String.mk (joinWithSpace (parts.map (fun part =>
    if matchBareOrdinal part.data then pyRStripChars part.data else part.data)))

/-- Lines 205 to 210: the combine step for a bare-ordinal question text on
a standalone emphasis anchor whose immediate next sibling is again an
emphasis element. -/
def bareCombine (root : HNode) (e : NPath) (questionText : String) : String :=
  match tagAt root e with
  | some tg =>
    if tg = "strong" || tg = "b" then
      match rawNextSibling root e with
      | some (.elem nt _ ncs) =>
        if nt = "strong" || nt = "b" then
          String.mk
            (pyRStripChars questionText.data ++ ' ' :: cleanTextChars (getTextCharsL ncs))
        else questionText
      | _ => questionText
    else questionText
  | none => questionText

def assembleQuestion (root : HNode) (e : NPath) (questionText : String)
    (parts : List String) : String :=
  match parts with
  | _ :: _ => joinParts (questionText :: parts)
  | [] =>
    if matchBareOrdinal questionText.data then bareCombine root e questionText
    else questionText

/-- Line 213: the `pre` key is set only when the captured content is
truthy (non-empty). -/
def preField (st : ScanState) : Option String :=
  match st.preC with
  | some p => if p = "" then none else some p
  | none => none

/-- Lines 216 to 241: classification and emission.  The primary keyword
check on the (lower-cased, pre-assembly) question text forces a special
record; otherwise a record is emitted only when choices were collected,
with the answer determined by the number of collected correct answers and
the secondary keyword check. -/
def classifyEmit (qLower : String) (finalQ : String) (img : Option String)
    (preC : Option String) (choices correct : List String) : Option Record :=
  if containsAny qLower primaryKeywords then
    some { question := finalQ, img := img, pre := preC, type := some "special",
           choices := some [], answer := some (.str imgSentinel) }
  else if choices.isEmpty then none
  else
    some { question := finalQ, img := img, pre := preC,
           choices := some choices,
           type :=
             match correct with
             | [] => if containsAny qLower secondaryKeywords then some "special" else none
             | _ => none,
           answer :=
             match correct with
             | [a] => some (.str a)
             | [] =>
               if containsAny qLower secondaryKeywords then some (.str imgSentinel)
               else some (.str "Unknown")
             | l => some (.list l) }

/-- The loop body for one entry of `all_elements` (lines 95 to 241):
`rest` is the remainder of `all_elements`, used by the image lookahead. -/
def processElement (root : HNode) (e : NPath) (rest : List NPath) : Option Record :=
  match questionTagOf root e with
  | none => none
  | some qt =>
    let qts := pyStripChars (textAt root qt)
    if matchFullOrdinal qts || matchBareOrdinal qts then
      let questionText := String.mk (cleanTextChars (textAt root qt))
      let img := imgOf root e rest
      let st := scanOf root e
      let finalQ := assembleQuestion root e questionText st.parts
      classifyEmit (lowerOf questionText) finalQ img (preField st) st.choices st.correct
    else none

def extractAux (root : HNode) : List NPath → List Record
  | [] => []
  | e :: rest =>
    match processElement root e rest with
    | some r => r :: extractAux root rest
    | none => extractAux root rest

/-- `extract_quiz_data`: the whole extraction pipeline over a parsed
tree. -/
def extract_quiz_data (root : HNode) : List Record :=
  extractAux root (allElements root)

/-- The extraction call as observed by a caller that also watches the
input tree: the records produced together with the tree after the run.
The Python function only ever reads the tree, so the returned tree is the
input tree. -/
def runExtractor (t : HNode) : List Record × HNode := (extract_quiz_data t, t)

/-! ## Specification-side definitions used by the theorems -/

/-- Strict document-position (lexicographic) order on node paths. -/
def pathLtB : NPath → NPath → Bool
  | [], [] => false
  | [], _ :: _ => true
  | _ :: _, [] => false
  | a :: as, b :: bs => if a < b then true else if a = b then pathLtB as bs else false

/-- The choice strings the list-item loop collects from a given item
sequence: one entry per item whose cleaned text is non-empty, in order. -/
def lisChoices (root : HNode) (lis : List NPath) : List String :=
  lis.filterMap (fun li =>
    let ct := cleanTextChars (textAt root li)
    if ct.isEmpty then none else some (String.mk ct))

/-- The correct-answer strings the list-item loop collects: the cleaned
texts of the non-empty items carrying a correct-answer marker. -/
def lisCorrect (root : HNode) (lis : List NPath) : List String :=
  lis.filterMap (fun li =>
    let ct := cleanTextChars (textAt root li)
    if !ct.isEmpty && liCorrect root li then some (String.mk ct) else none)

/-- Choices of the list at `u`: collected over its descendant `li`s. -/
def ulChoices (root : HNode) (u : NPath) : List String :=
  lisChoices root (subtreeFindAll root u ["li"])

def ulCorrect (root : HNode) (u : NPath) : List String :=
  lisCorrect root (subtreeFindAll root u ["li"])

/-- The ordering-task keywords named by claim C10; the source's secondary
set additionally lists `"match"`, which is unreachable there because any
question containing it is already classified by the primary check. -/
def orderingKeywords : List String := ["order", "drag and drop", "sequence"]

/-! ## Concrete input trees for counterexamples and witnesses -/

def tx (s : String) : HNode := .text s

def el (t : String) (cs : List HNode) : HNode := .elem t [] cs

/-- A parsed document root, as BeautifulSoup represents it. -/
def doc (cs : List HNode) : HNode := .elem "[document]" [] cs

def spanColor (s : String) : HNode := .elem "span" [("style", "color: red")] [tx s]

/-- A question paragraph, a continuation paragraph whose emphasis text
contains `Match`, and a list with one coloured (correct) item. -/
def C1tree : HNode := doc [
  el "p" [el "strong" [tx "1. Pick one"]],
  el "p" [el "strong" [tx "Match the following"]],
  el "ul" [el "li" [spanColor "A"], el "li" [tx "B"]]]

/-- A question whose special phrase sits in the question tag itself. -/
def C1wtree : HNode := doc [
  el "p" [el "strong" [tx "1. Refer to the exhibit."]]]

/-- A list whose single marked item is literally the string `Unknown`. -/
def C2tree : HNode := doc [
  el "p" [el "strong" [tx "2. Status?"]],
  el "ul" [el "li" [spanColor "Unknown"], el "li" [tx "Other"]]]

/-- One coloured item, giving a single-string answer. -/
def C2wtree : HNode := doc [
  el "p" [el "strong" [tx "1. Why?"]],
  el "ul" [el "li" [spanColor "Because"], el "li" [tx "No"]]]

/-- A standalone emphasis anchor that precedes a paragraph anchor in the
document. -/
def C3tree : HNode := doc [
  el "strong" [tx "1. Solo question?"],
  el "p" [el "strong" [tx "2. Second?"]]]

/-- A bare-ordinal emphasis element followed by a sibling emphasis element
and a choice list, with no paragraph ancestor. -/
def C4tree : HNode := doc [
  el "b" [tx "5."],
  el "b" [tx "What is TCP?"],
  el "ul" [el "li" [spanColor "A transport protocol"]]]

/-- A paragraph holding a bare-ordinal emphasis element immediately
followed by another emphasis element: the malformed merged case. -/
def C5tree : HNode := doc [
  el "p" [el "b" [tx "5."], tx " ", el "b" [tx "What is TCP?"]],
  el "ul" [el "li" [tx "A"], el "li" [spanColor "B"]]]

/-- A special-phrase question followed by a list with two items. -/
def C6tree : HNode := doc [
  el "p" [el "strong" [tx "1. Match the items"]],
  el "ul" [el "li" [tx "A"], el "li" [tx "B"]]]

/-- A plain question with an unmarked two-item list. -/
def C6wtree : HNode := doc [
  el "p" [el "strong" [tx "1. Pick"]],
  el "ul" [el "li" [spanColor "A"], el "li" [tx "B"]]]

/-- A plain question with one coloured item. -/
def C7wtree : HNode := doc [
  el "p" [el "strong" [tx "1. Why?"]],
  el "ul" [el "li" [spanColor "A"]]]

/-- A list item whose colour marker sits on a `b` element. -/
def C8tree : HNode := doc [
  el "p" [el "strong" [tx "3. Pick"]],
  el "ul" [el "li" [.elem "b" [("style", "color: red")] [tx "Alpha"]],
           el "li" [tx "Beta"]]]

/-- An ordering question with an unmarked list. -/
def C10wtree : HNode := doc [
  el "p" [el "strong" [tx "4. Put these in order"]],
  el "ul" [el "li" [tx "A"], el "li" [tx "B"]]]

/-! ## Helper lemmas about the string primitives -/

theorem not_pySpace_of_isDigit {c : Char} (h : c.isDigit = true) : pySpace c = false := by
  cases hps : pySpace c with
  | false => rfl
  | true =>
    exfalso
    have hc : c = ' ' ∨ c = '\t' ∨ c = '\n' ∨ c = '\x0d' ∨ c = '\x0b' ∨
        c = '\x0c' ∨ c = ' ' := by
      simpa [pySpace, or_assoc] using hps
    rcases hc with h1 | h1 | h1 | h1 | h1 | h1 | h1 <;> subst h1 <;>
      exact absurd h (by decide)

theorem takeWhile_head {p : Char → Bool} {l : List Char} {c : Char} {t : List Char}
    (h : l.takeWhile p = c :: t) : l.head? = some c ∧ p c = true := by
  cases l with
  | nil => simp at h
  | cons a as =>
    rw [List.takeWhile_cons] at h
    split at h
    · injection h with h1 _
      subst h1
      exact ⟨rfl, by assumption⟩
    · simp at h

theorem ordinal_head_digit {m : List Char}
    (h : (matchFullOrdinal m || matchBareOrdinal m) = true) :
    ∃ d t, m = d :: t ∧ d.isDigit = true := by
  have hne : ¬ m.takeWhile Char.isDigit = [] := by
    intro hnil
    unfold matchFullOrdinal matchBareOrdinal at h
    rw [hnil] at h
    simp at h
  cases htw : m.takeWhile Char.isDigit with
  | nil => exact absurd htw hne
  | cons c t =>
    obtain ⟨hh, hd⟩ := takeWhile_head htw
    cases m with
    | nil => simp at hh
    | cons a as =>
      refine ⟨a, as, rfl, ?_⟩
      have ha : a = c := by simpa using hh
      rw [ha]
      exact hd

theorem dropWhile_concat_getLast {p : Char → Bool} (a : Char) :
    ∀ v : List Char, (v ++ [a]).dropWhile p ≠ [] →
      ((v ++ [a]).dropWhile p).getLast? = some a := by
  intro v
  induction v with
  | nil =>
    intro h
    by_cases hp : p a = true
    · simp [List.dropWhile, hp] at h
    · simp [List.dropWhile, hp]
  | cons c v ih =>
    intro h
    rw [List.cons_append, List.dropWhile_cons] at h ⊢
    by_cases hp : p c = true
    · rw [if_pos hp] at h ⊢
      exact ih h
    · rw [if_neg hp]
      rw [show c :: (v ++ [a]) = (c :: v) ++ [a] by simp]
      exact List.getLast?_concat _

theorem pyStrip_head {l : List Char} {d : Char} {t : List Char}
    (h : pyStripChars l = d :: t) : (l.dropWhile pySpace).head? = some d := by
  unfold pyStripChars at h
  cases hm : l.dropWhile pySpace with
  | nil => rw [hm] at h; simp at h
  | cons a t0 =>
    rw [hm, show (a :: t0).reverse = t0.reverse ++ [a] by simp] at h
    have hne : (t0.reverse ++ [a]).dropWhile pySpace ≠ [] := by
      intro h0
      rw [h0] at h
      simp at h
    have hlast := dropWhile_concat_getLast a t0.reverse hne
    have hhd : (((t0.reverse ++ [a]).dropWhile pySpace).reverse).head? = some a := by
      rw [List.head?_reverse]
      exact hlast
    rw [h] at hhd
    simp only [List.head?_cons, Option.some.injEq] at hhd
    simp [hhd]

theorem pyStrip_ne_nil {l : List Char} {c : Char} (hm : c ∈ l) (hc : pySpace c = false) :
    pyStripChars l ≠ [] := by
  intro h
  unfold pyStripChars at h
  rw [List.reverse_eq_nil_iff, List.dropWhile_eq_nil_iff] at h
  have hcm : c ∈ l.dropWhile pySpace := by
    have hsplit : l.takeWhile pySpace ++ l.dropWhile pySpace = l :=
      List.takeWhile_append_dropWhile pySpace l
    rcases List.mem_append.mp (by rw [hsplit]; exact hm) with h1 | h1
    · have := List.mem_takeWhile_imp h1
      rw [hc] at this
      cases this
    · exact h1
  have := h c (by rw [List.mem_reverse]; exact hcm)
  rw [hc] at this
  cases this

theorem mem_collapseAux {c : Char} (hc : pySpace c = false) :
    ∀ (l : List Char) (b : Bool), c ∈ l → c ∈ collapseAux b l := by
  intro l
  induction l with
  | nil => intro b h; cases h
  | cons a t ih =>
    intro b h
    unfold collapseAux
    by_cases hpa : pySpace a = true
    · have hct : c ∈ t := by
        rcases List.mem_cons.mp h with rfl | h1
        · rw [hpa] at hc; cases hc
        · exact h1
      rw [if_pos hpa]
      split
      · exact ih true hct
      · exact List.mem_cons_of_mem _ (ih true hct)
    · rw [if_neg hpa]
      rcases List.mem_cons.mp h with rfl | h1
      · exact List.mem_cons_self _ _
      · exact List.mem_cons_of_mem _ (ih false h1)

theorem unescapeAux_cons {f : Nat} {c : Char} {r : List Char} (hc : ¬ c = '&') :
    unescapeAux (f + 1) (c :: r) = c :: unescapeAux f r := by
  conv_lhs => rw [unescapeAux]
  rw [if_neg hc]

theorem unescapeAux_ws :
    ∀ (ws : List Char) (f : Nat) (t : List Char),
      ws.length + t.length ≤ f → (∀ c ∈ ws, pySpace c = true) →
      unescapeAux f (ws ++ t) = ws ++ unescapeAux (f - ws.length) t := by
  intro ws
  induction ws with
  | nil => intro f t _ _; simp
  | cons c ws ih =>
    intro f t hf hws
    cases f with
    | zero => simp at hf
    | succ f0 =>
      have hc : pySpace c = true := hws c (List.mem_cons_self _ _)
      have hcamp : ¬ c = '&' := by
        intro h0
        rw [h0] at hc
        exact absurd hc (by decide)
      rw [List.cons_append, unescapeAux_cons hcamp,
        ih f0 t (by simp at hf; omega) (fun x hx => hws x (List.mem_cons_of_mem _ hx))]
      simp [Nat.succ_sub_succ]

theorem mem_unescape {ws : List Char} {d : Char} {r : List Char}
    (hws : ∀ c ∈ ws, pySpace c = true) (hd : ¬ d = '&') :
    d ∈ unescapeChars (ws ++ d :: r) := by
  unfold unescapeChars
  rw [unescapeAux_ws ws _ (d :: r) (by simp) hws]
  have hlen : (ws ++ d :: r).length - ws.length = r.length + 1 := by
    simp [List.length_append]
  rw [hlen, unescapeAux_cons hd]
  exact List.mem_append_right _ (List.mem_cons_self _ _)

theorem cleanText_ne_nil_of_ordinal {l : List Char}
    (h : (matchFullOrdinal (pyStripChars l) || matchBareOrdinal (pyStripChars l)) = true) :
    cleanTextChars l ≠ [] := by
  obtain ⟨d, t, hst, hd⟩ := ordinal_head_digit h
  have hh := pyStrip_head hst
  cases hm : l.dropWhile pySpace with
  | nil => rw [hm] at hh; simp at hh
  | cons a r =>
    rw [hm] at hh
    have had : a = d := by simpa using hh
    subst had
    have hsplit : l = l.takeWhile pySpace ++ a :: r := by
      conv_lhs => rw [← List.takeWhile_append_dropWhile pySpace l]
      rw [hm]
    have hdna : ¬ a = '&' := by
      intro h0
      rw [h0] at hd
      exact absurd hd (by decide)
    have hmem : a ∈ unescapeChars l := by
      rw [hsplit]
      exact mem_unescape (fun c hc => List.mem_takeWhile_imp hc) hdna
    have hnsp : pySpace a = false := not_pySpace_of_isDigit hd
    exact pyStrip_ne_nil (mem_collapseAux hnsp _ false hmem) hnsp

theorem joinWithSpace_ne (x y : List Char) (t : List (List Char)) :
    joinWithSpace (x :: y :: t) ≠ [] := by
  simp [joinWithSpace]

theorem bareCombine_ne {root : HNode} {e : NPath} {q : String}
    (h : q.data ≠ []) : (bareCombine root e q).data ≠ [] := by
  unfold bareCombine
  split
  · split
    · split
      · split
        · simp
        · exact h
      · exact h
    · exact h
  · exact h

theorem assembleQuestion_ne {root : HNode} {e : NPath} {q : String}
    {parts : List String} (h : q.data ≠ []) :
    (assembleQuestion root e q parts).data ≠ [] := by
  cases parts with
  | cons p ps =>
    simp only [assembleQuestion, joinParts, List.map_cons]
    exact joinWithSpace_ne _ _ _
  | nil =>
    simp only [assembleQuestion]
    split
    · exact bareCombine_ne h
    · exact h

theorem String_ne_empty_of_data {s : String} (h : s.data ≠ []) : s ≠ "" := by
  intro he
  rw [he] at h
  exact h rfl

/-! ## Lemmas about classification and the per-anchor pipeline -/

theorem classifyEmit_some {qL fQ : String} {img preC : Option String}
    {choices correct : List String} {r : Record}
    (h : classifyEmit qL fQ img preC choices correct = some r) :
    r.question = fQ ∧ r.answer.isSome = true := by
  unfold classifyEmit at h
  split at h
  · have := Option.some.inj h
    subst this
    exact ⟨rfl, rfl⟩
  · split at h
    · exact absurd h (by simp)
    · have := Option.some.inj h
      subst this
      refine ⟨rfl, ?_⟩
      cases correct with
      | nil =>
        simp only []
        split <;> rfl
      | cons a t =>
        cases t with
        | nil => rfl
        | cons b t2 => rfl

theorem classifyEmit_primary {qL fQ : String} {img preC : Option String}
    {choices correct : List String}
    (h : containsAny qL primaryKeywords = true) :
    classifyEmit qL fQ img preC choices correct =
      some { question := fQ, img := img, pre := preC, type := some "special",
             choices := some [], answer := some (.str imgSentinel) } := by
  unfold classifyEmit
  rw [if_pos h]

theorem classifyEmit_nonprimary {qL fQ : String} {img preC : Option String}
    {choices correct : List String} {r : Record}
    (hp : containsAny qL primaryKeywords = false)
    (h : classifyEmit qL fQ img preC choices correct = some r) :
    choices ≠ [] ∧
    r.choices = some choices ∧
    r.question = fQ ∧
    (∀ a, correct = [a] → r.answer = some (.str a) ∧ r.type = none) ∧
    (1 < correct.length → r.answer = some (.list correct) ∧ r.type = none) ∧
    (correct = [] → containsAny qL secondaryKeywords = true →
      r.answer = some (.str imgSentinel) ∧ r.type = some "special") ∧
    (correct = [] → containsAny qL secondaryKeywords = false →
      r.answer = some (.str "Unknown") ∧ r.type = none) ∧
    ((∃ l, r.answer = some (.list l)) ↔ 1 < correct.length) := by
  unfold classifyEmit at h
  rw [hp] at h
  simp only [Bool.false_eq_true, if_false] at h
  split at h
  · exact absurd h (by simp)
  · have hc : choices ≠ [] := by
      rename_i hne
      intro h0
      rw [h0] at hne
      simp at hne
    have := Option.some.inj h
    subst this
    refine ⟨hc, rfl, rfl, ?_, ?_, ?_, ?_, ?_⟩
    · intro a ha
      subst ha
      exact ⟨rfl, rfl⟩
    · intro hlen
      cases correct with
      | nil => simp at hlen
      | cons a t =>
        cases t with
        | nil => simp at hlen
        | cons b t2 => exact ⟨rfl, rfl⟩
    · intro h0 hk
      subst h0
      refine ⟨?_, ?_⟩ <;> simp [hk]
    · intro h0 hk
      subst h0
      refine ⟨?_, ?_⟩ <;> simp [hk]
    · constructor
      · rintro ⟨l, hl⟩
        cases correct with
        | nil =>
          by_cases hk : containsAny qL secondaryKeywords = true <;> simp [hk] at hl
        | cons a t =>
          cases t with
          | nil => simp at hl
          | cons b t2 => simp
      · intro hlen
        cases correct with
        | nil => simp at hlen
        | cons a t =>
          cases t with
          | nil => simp at hlen
          | cons b t2 => exact ⟨a :: b :: t2, rfl⟩

theorem processElement_eq {root : HNode} {e : NPath} {rest : List NPath} {qt : NPath}
    (hqt : questionTagOf root e = some qt)
    (hg : (matchFullOrdinal (pyStripChars (textAt root qt)) ||
           matchBareOrdinal (pyStripChars (textAt root qt))) = true) :
    processElement root e rest =
      classifyEmit (lowerOf (String.mk (cleanTextChars (textAt root qt))))
        (assembleQuestion root e (String.mk (cleanTextChars (textAt root qt)))
          (scanOf root e).parts)
        (imgOf root e rest) (preField (scanOf root e)) (scanOf root e).choices
        (scanOf root e).correct := by
  unfold processElement
  rw [hqt]
  simp only [hg, if_true]

theorem processElement_none_guard {root : HNode} {e : NPath} {rest : List NPath} {qt : NPath}
    (hqt : questionTagOf root e = some qt)
    (hg : (matchFullOrdinal (pyStripChars (textAt root qt)) ||
           matchBareOrdinal (pyStripChars (textAt root qt))) = false) :
    processElement root e rest = none := by
  unfold processElement
  rw [hqt]
  simp [hg]

theorem processElement_none_tag {root : HNode} {e : NPath} {rest : List NPath}
    (h : questionTagOf root e = none) : processElement root e rest = none := by
  unfold processElement
  rw [h]

theorem isQuestion_eq {root : HNode} {e : NPath} {qt : NPath}
    (hqt : questionTagOf root e = some qt) :
    isQuestion root e =
      (matchFullOrdinal (pyStripChars (textAt root qt)) ||
       matchBareOrdinal (pyStripChars (textAt root qt))) := by
  unfold isQuestion
  rw [hqt]

theorem processLis_spec (root : HNode) :
    ∀ (lis : List NPath) (st : ScanState),
      processLis root lis st =
        { st with choices := st.choices ++ lisChoices root lis,
                  correct := st.correct ++ lisCorrect root lis } := by
  intro lis
  induction lis with
  | nil => intro st; simp [processLis, lisChoices, lisCorrect]
  | cons li t ih =>
    intro st
    by_cases hct : cleanTextChars (textAt root li) = []
    · have hcE : (cleanTextChars (textAt root li)).isEmpty = true := by simp [hct]
      simp only [processLis, hcE, if_true, ih]
      simp [lisChoices, lisCorrect, List.filterMap_cons, hct]
    · have hcE : (cleanTextChars (textAt root li)).isEmpty = false := by
        simpa using hct
      by_cases hcor : liCorrect root li = true
      · simp only [processLis, hcE, Bool.false_eq_true, if_false, hcor, if_true, ih]
        simp [lisChoices, lisCorrect, List.filterMap_cons, hct, hcor,
          List.append_assoc]
      · have hcor2 : liCorrect root li = false := by simpa using hcor
        simp only [processLis, hcE, Bool.false_eq_true, if_false, hcor2, ih]
        simp [lisChoices, lisCorrect, List.filterMap_cons, hct, hcor2,
          List.append_assoc]

theorem scanSibs_spec (root : HNode) :
    ∀ (sibs : List NPath) (st : ScanState),
      ((scanSibs root sibs st).choices = st.choices ∧
       (scanSibs root sibs st).correct = st.correct ∧
       (scanSibs root sibs st).ulPath = st.ulPath) ∨
      (∃ u, tagAt root u = some "ul" ∧
        (scanSibs root sibs st).ulPath = some u ∧
        (scanSibs root sibs st).choices = st.choices ++ ulChoices root u ∧
        (scanSibs root sibs st).correct = st.correct ++ ulCorrect root u) := by
  intro sibs
  induction sibs with
  | nil => intro st; exact Or.inl ⟨rfl, rfl, rfl⟩
  | cons s rest ih =>
    intro st
    by_cases hul : (tagAt root s).getD "" = "ul"
    · right
      have htag : tagAt root s = some "ul" := by
        cases htg : tagAt root s with
        | none => rw [htg] at hul; simp at hul
        | some t => rw [htg] at hul; simp at hul; rw [hul]
      refine ⟨s, htag, ?_, ?_, ?_⟩ <;>
        simp [scanSibs, hul, processLis_spec, ulChoices, ulCorrect]
    · by_cases hp : (tagAt root s).getD "" = "p"
      · cases hsb : findStrongOrB root s with
        | none =>
          have : scanSibs root (s :: rest) st = scanSibs root rest st := by
            simp [scanSibs, hul, hp, hsb]
          rw [this]
          exact ih st
        | some sb =>
          by_cases hfo : matchFullOrdinal (pyStripChars (textAt root sb)) = true
          · have : scanSibs root (s :: rest) st = st := by
              simp [scanSibs, hul, hp, hsb, hfo]
            rw [this]
            exact Or.inl ⟨rfl, rfl, rfl⟩
          · have hfo2 : matchFullOrdinal (pyStripChars (textAt root sb)) = false := by
              simpa using hfo
            have : scanSibs root (s :: rest) st =
                scanSibs root rest
                  { st with parts :=
                      st.parts ++ [String.mk (cleanTextChars (textAt root sb))] } := by
              simp [scanSibs, hul, hp, hsb, hfo2]
            rw [this]
            rcases ih { st with parts :=
                st.parts ++ [String.mk (cleanTextChars (textAt root sb))] } with
              ⟨h1, h2, h3⟩ | ⟨u, hu1, hu2, hu3, hu4⟩
            · exact Or.inl ⟨h1, h2, h3⟩
            · exact Or.inr ⟨u, hu1, hu2, hu3, hu4⟩
      · have : scanSibs root (s :: rest) st =
            scanSibs root rest
              (if (tagAt root s).getD "" = "pre" && (st.preC.getD "").isEmpty then
                { st with preC := some (String.mk (preContentChars (textAt root s))) }
              else st) := by
          simp [scanSibs, hul, hp]
        rw [this]
        by_cases hpre : (tagAt root s).getD "" = "pre" && (st.preC.getD "").isEmpty
        · rw [if_pos hpre]
          rcases ih { st with preC := some (String.mk (preContentChars (textAt root s))) } with
            ⟨h1, h2, h3⟩ | ⟨u, hu1, hu2, hu3, hu4⟩
          · exact Or.inl ⟨h1, h2, h3⟩
          · exact Or.inr ⟨u, hu1, hu2, hu3, hu4⟩
        · rw [if_neg hpre]
          exact ih st

theorem mem_extractAux {root : HNode} {r : Record} :
    ∀ l : List NPath, r ∈ extractAux root l →
      ∃ e rest, processElement root e rest = some r := by
  intro l
  induction l with
  | nil => intro h; simp [extractAux] at h
  | cons e rest ih =>
    intro h
    unfold extractAux at h
    cases hpe : processElement root e rest with
    | none =>
      rw [hpe] at h
      exact ih h
    | some r0 =>
      rw [hpe] at h
      rcases List.mem_cons.mp h with rfl | h1
      · exact ⟨e, rest, hpe⟩
      · exact ih h1

/-! ## Document order of the traversal -/

theorem pathLtB_nil_cons (b : Nat) (bs : NPath) : pathLtB [] (b :: bs) = true := rfl

theorem pathLtB_cons_lt {a b : Nat} (h : a < b) (as bs : NPath) :
    pathLtB (a :: as) (b :: bs) = true := by
  simp [pathLtB, h]

theorem pathLtB_cons_same (a : Nat) (as bs : NPath) :
    pathLtB (a :: as) (a :: bs) = pathLtB as bs := by
  simp [pathLtB]

mutual
theorem preorder_props : ∀ t : HNode,
    (preorder t).Pairwise (fun p q => pathLtB p q = true) ∧
    ∀ q ∈ preorder t, q ≠ []
  | .text _ => by simp [preorder]
  | .elem tg attrs cs => by
    have h := preorderL_props 0 cs
    refine ⟨h.1, ?_⟩
    intro q hq
    obtain ⟨j, t0, rfl, _⟩ := h.2 q hq
    simp

theorem preorderL_props : ∀ (i : Nat) (cs : List HNode),
    (preorderL i cs).Pairwise (fun p q => pathLtB p q = true) ∧
    ∀ q ∈ preorderL i cs, ∃ j t0, q = j :: t0 ∧ i ≤ j
  | i, [] => by simp [preorderL]
  | i, c :: cs => by
    have hc := preorder_props c
    have hcs := preorderL_props (i + 1) cs
    constructor
    · simp only [preorderL]
      rw [List.pairwise_cons]
      constructor
      · intro q hq
        rcases List.mem_append.mp hq with h1 | h1
        · obtain ⟨a, ha, rfl⟩ := List.mem_map.mp h1
          have hane : a ≠ [] := hc.2 a ha
          cases a with
          | nil => exact absurd rfl hane
          | cons x xs =>
            rw [pathLtB_cons_same]
            exact pathLtB_nil_cons x xs
        · obtain ⟨j, t0, rfl, hij⟩ := hcs.2 q h1
          exact pathLtB_cons_lt (by omega) [] t0
      · rw [List.pairwise_append]
        refine ⟨?_, hcs.1, ?_⟩
        · refine List.Pairwise.map _ ?_ hc.1
          intro a b hab
          rw [pathLtB_cons_same]
          exact hab
        · intro p hp q hq
          obtain ⟨a, ha, rfl⟩ := List.mem_map.mp hp
          obtain ⟨j, t0, rfl, hij⟩ := hcs.2 q hq
          exact pathLtB_cons_lt (by omega) a t0
    · intro q hq
      simp only [preorderL] at hq
      rcases List.mem_cons.mp hq with rfl | hq1
      · exact ⟨i, [], rfl, le_refl i⟩
      · rcases List.mem_append.mp hq1 with h1 | h1
        · obtain ⟨a, _, rfl⟩ := List.mem_map.mp h1
          exact ⟨i, a, rfl, le_refl i⟩
        · obtain ⟨j, t0, hq2, hij⟩ := hcs.2 _ h1
          exact ⟨j, t0, hq2, by omega⟩
end

theorem findAllTags_sorted (t : HNode) (tags : List String) :
    (findAllTags t tags).Pairwise (fun p q => pathLtB p q = true) :=
  List.Pairwise.filter _ (preorder_props t).1

theorem standaloneTags_sorted (root : HNode) :
    (standaloneTags root).Pairwise (fun p q => pathLtB p q = true) :=
  List.Pairwise.filter _ (findAllTags_sorted root ["strong", "b"])

/-! ## Bridging lemmas for the claim statements -/

theorem initQuestion_elim {root : HNode} {e : NPath} {q : String}
    (hq : initQuestionOf root e = some q) :
    ∃ qt, questionTagOf root e = some qt ∧
      q = String.mk (cleanTextChars (textAt root qt)) := by
  unfold initQuestionOf at hq
  cases hqt : questionTagOf root e with
  | none => rw [hqt] at hq; simp at hq
  | some qt =>
    rw [hqt] at hq
    have h2 : String.mk (cleanTextChars (textAt root qt)) = q := by simpa using hq
    exact ⟨qt, rfl, h2.symm⟩

theorem emitted_guard {root : HNode} {e : NPath} {rest : List NPath}
    {r : Record} {qt : NPath}
    (hqt : questionTagOf root e = some qt)
    (hr : processElement root e rest = some r) :
    (matchFullOrdinal (pyStripChars (textAt root qt)) ||
     matchBareOrdinal (pyStripChars (textAt root qt))) = true := by
  by_cases hg : (matchFullOrdinal (pyStripChars (textAt root qt)) ||
      matchBareOrdinal (pyStripChars (textAt root qt))) = true
  · exact hg
  · rw [processElement_none_guard hqt (by simpa using hg)] at hr
    simp at hr

/-! ## Claim C1 -/

/-- Claim C1, counterexample: the source applies the special-phrase check
to the pre-assembly question text only.  Here the emitted record's final
question text contains `match` (lower-cased) through a continuation
paragraph, yet the record is not typed special and keeps its choices and
its colour-derived answer — refuting the claim as stated over the emitted
record's question text. -/
theorem C1_counterexample :
    extract_quiz_data C1tree =
      [{ question := "1. Pick one Match the following",
         choices := some ["A", "B"], answer := some (QAnswer.str "A") }] ∧
    containsAny (lowerOf "1. Pick one Match the following") primaryKeywords = true ∧
    ({ question := "1. Pick one Match the following",
       choices := some ["A", "B"],
       answer := some (QAnswer.str "A") } : Record).type ≠ some "special" :=
  ⟨by decide, by decide, by decide⟩

/-- Claim C1, amended: if the initial (pre-assembly) question-tag text,
lower-cased, contains any primary special phrase, then every record the
anchor emits has `type` special, empty `choices` and the image-sentinel
`answer`, and a record is emitted whenever the anchor qualifies as a
question at all — regardless of whether a choice list was found. -/
theorem C1_special_law (root : HNode) (e : NPath) (rest : List NPath) (q : String)
    (hq : initQuestionOf root e = some q)
    (hk : containsAny (lowerOf q) primaryKeywords = true) :
    (∀ r, processElement root e rest = some r →
      r.type = some "special" ∧ r.choices = some [] ∧
      r.answer = some (.str imgSentinel)) ∧
    (isQuestion root e = true → (processElement root e rest).isSome = true) := by
  obtain ⟨qt, hqt, rfl⟩ := initQuestion_elim hq
  by_cases hg : (matchFullOrdinal (pyStripChars (textAt root qt)) ||
      matchBareOrdinal (pyStripChars (textAt root qt))) = true
  · rw [processElement_eq hqt hg, classifyEmit_primary hk]
    constructor
    · intro r hr
      have := Option.some.inj hr
      subst this
      exact ⟨rfl, rfl, rfl⟩
    · intro _
      rfl
  · have hg2 : (matchFullOrdinal (pyStripChars (textAt root qt)) ||
        matchBareOrdinal (pyStripChars (textAt root qt))) = false := by simpa using hg
    rw [processElement_none_guard hqt hg2]
    constructor
    · intro r hr
      simp at hr
    · intro h2
      rw [isQuestion_eq hqt, hg2] at h2
      simp at h2

/-- Claim C1, witness: a concrete exhibit question with no choice list at
all still produces a record. -/
theorem C1_special_law_witness : (processElement C1wtree [0] []).isSome = true :=
  (C1_special_law C1wtree [0] [] "1. Refer to the exhibit." (by decide) (by decide)).2
    (by decide)

/-! ## Claim C2 -/

/-- Claim C2, counterexample: a list whose single marked item has the
text `Unknown`.  Exactly one correct-answer marker is collected, yet the
emitted `answer` equals the fixed unknown-sentinel string — so the
biconditional "`answer` is the unknown sentinel iff zero markers were
collected" fails as stated. -/
theorem C2_counterexample :
    extract_quiz_data C2tree =
      [{ question := "2. Status?", choices := some ["Unknown", "Other"],
         answer := some (QAnswer.str "Unknown") }] ∧
    (scanOf C2tree [0]).correct = ["Unknown"] :=
  ⟨by decide, by decide⟩

/-- Claim C2, amended: for a record emitted from the non-special branch,
the answer is produced by the marker count — the single collected string
for exactly one marker, the ordered list for more than one (and a
list-valued answer occurs exactly then), and the unknown sentinel for
zero markers with no secondary keyword.  The extensional "iff" reading of
the sentinel clause holds except when a collected answer string is itself
the sentinel string, as the counterexample shows. -/
theorem C2_answer_cardinality (root : HNode) (e : NPath) (rest : List NPath)
    (q : String) (r : Record)
    (hq : initQuestionOf root e = some q)
    (hp : containsAny (lowerOf q) primaryKeywords = false)
    (hr : processElement root e rest = some r) :
    (∀ a, (scanOf root e).correct = [a] → r.answer = some (.str a)) ∧
    (1 < (scanOf root e).correct.length →
      r.answer = some (.list (scanOf root e).correct)) ∧
    ((scanOf root e).correct = [] →
      containsAny (lowerOf q) secondaryKeywords = false →
      r.answer = some (.str "Unknown")) ∧
    ((∃ l, r.answer = some (.list l)) ↔ 1 < (scanOf root e).correct.length) := by
  obtain ⟨qt, hqt, rfl⟩ := initQuestion_elim hq
  have hg := emitted_guard hqt hr
  rw [processElement_eq hqt hg] at hr
  obtain ⟨hc, hch, hque, h1, h2, h3, h4, h5⟩ := classifyEmit_nonprimary hp hr
  exact ⟨fun a ha => (h1 a ha).1, fun hl => (h2 hl).1,
    fun h0 hk => (h4 h0 hk).1, h5⟩

/-- Claim C2, witness: one marked item gives the single-string answer. -/
theorem C2_answer_cardinality_witness :
    (scanOf C2wtree [0]).correct = ["Because"] ∧
    ({ question := "1. Why?", choices := some ["Because", "No"],
       answer := some (QAnswer.str "Because") } : Record).answer =
      some (QAnswer.str "Because") :=
  ⟨by decide,
    (C2_answer_cardinality C2wtree [0] [] "1. Why?"
        { question := "1. Why?", choices := some ["Because", "No"],
          answer := some (QAnswer.str "Because") }
        (by decide) (by decide) (by decide)).1 "Because" (by decide)⟩

/-! ## Claim C3 -/

/-- Claim C3, counterexample: the anchor sequence concatenates all
paragraphs before all standalone anchors.  In this document the
standalone anchor at path `[0]` precedes the paragraph at path `[1]`, yet
the iterated sequence lists the paragraph first — the sequence is not
merged by document position. -/
theorem C3_counterexample :
    allElements C3tree = [[1], [0]] ∧ pathLtB [0] [1] = true :=
  ⟨by decide, by decide⟩

/-- Claim C3, amended: the anchor sequence is the concatenation of the
paragraph anchors followed by the standalone anchors, each group by
itself in strictly increasing document order; the two groups are not
interleaved by document position. -/
theorem C3_anchor_order (root : HNode) :
    allElements root = allParagraphs root ++ standaloneTags root ∧
    (allParagraphs root).Pairwise (fun p q => pathLtB p q = true) ∧
    (standaloneTags root).Pairwise (fun p q => pathLtB p q = true) :=
  ⟨rfl, findAllTags_sorted root ["p"], standaloneTags_sorted root⟩

/-! ## Claim C4 -/

/-- Claim C4, code evaluation at the failing input: a bare-ordinal `b`
element (stripped text `5.`) with no paragraph ancestor, followed by a
sibling emphasis element and a choice list.  The standalone collection at
line 70 filters candidate tags by the full ordinal pattern `^\d+\.\s+`,
which the stripped text `5.` cannot match, so no anchor is collected and
no record is emitted — the combine step of lines 205 to 210 that would
produce `5. What is TCP?` is unreachable. -/
theorem C4_code_eval :
    allElements C4tree = [] ∧ extract_quiz_data C4tree = [] :=
  ⟨by decide, by decide⟩

/-! ## Claim C5 -/

/-- Claim C5, code evaluation at the failing input: a paragraph holding a
bare-ordinal emphasis element immediately followed by another emphasis
element.  Line 70 admits a tag into the recovery branch only when the
tag's own stripped text matches the full ordinal pattern, while the
branch then requires the same text to match the bare ordinal pattern —
the two are mutually exclusive on stripped text, so the bare-ordinal
element is never added as a standalone anchor and the paragraph emits the
question `5.` alone. -/
theorem C5_code_eval :
    standaloneTags C5tree = [] ∧
    extract_quiz_data C5tree =
      [{ question := "5.", choices := some ["A", "B"],
         answer := some (QAnswer.str "B") }] :=
  ⟨by decide, by decide⟩

/-! ## Claim C6 -/

/-- Claim C6, counterexample: a special-phrase question followed by a
list with two non-empty items.  The forward scan matches the list, but
the primary special check empties `choices`, so the emitted record has no
entry for either list item — the round trip fails for special records. -/
theorem C6_counterexample :
    extract_quiz_data C6tree =
      [{ question := "1. Match the items", type := some "special",
         choices := some [], answer := some (QAnswer.str imgSentinel) }] ∧
    (scanOf C6tree [0]).ulPath = some [1] ∧
    ulChoices C6tree [1] = ["A", "B"] :=
  ⟨by decide, by decide, by decide⟩

/-- Claim C6, amended: for every emitted record whose initial question
text contains no primary special phrase, the scan stopped at a list and
the record's `choices` are exactly the non-empty cleaned texts of that
list's items, in order, and non-empty. -/
theorem C6_choices_roundtrip (root : HNode) (e : NPath) (rest : List NPath)
    (q : String) (r : Record)
    (hq : initQuestionOf root e = some q)
    (hp : containsAny (lowerOf q) primaryKeywords = false)
    (hr : processElement root e rest = some r) :
    ∃ u, (scanOf root e).ulPath = some u ∧ tagAt root u = some "ul" ∧
      r.choices = some (ulChoices root u) ∧ ulChoices root u ≠ [] := by
  obtain ⟨qt, hqt, rfl⟩ := initQuestion_elim hq
  have hg := emitted_guard hqt hr
  rw [processElement_eq hqt hg] at hr
  obtain ⟨hc, hch, -, -, -, -, -, -⟩ := classifyEmit_nonprimary hp hr
  rcases scanSibs_spec root (elemSiblingsAfter root e) initScan with
    ⟨h1, -, -⟩ | ⟨u, hu1, hu2, hu3, -⟩
  · exfalso
    apply hc
    unfold scanOf
    rw [h1]
    rfl
  · refine ⟨u, ?_, hu1, ?_, ?_⟩
    · unfold scanOf
      exact hu2
    · rw [hch]
      unfold scanOf
      rw [hu3]
      rfl
    · intro h0
      apply hc
      unfold scanOf
      rw [hu3, h0]
      rfl

/-- Claim C6, witness: a plain question whose two-item list round-trips
into the record's choices. -/
theorem C6_choices_roundtrip_witness :
    ∃ u, (scanOf C6wtree [0]).ulPath = some u ∧ tagAt C6wtree u = some "ul" ∧
      ({ question := "1. Pick", choices := some ["A", "B"],
         answer := some (QAnswer.str "A") } : Record).choices =
        some (ulChoices C6wtree u) ∧ ulChoices C6wtree u ≠ [] :=
  C6_choices_roundtrip C6wtree [0] [] "1. Pick"
    { question := "1. Pick", choices := some ["A", "B"],
      answer := some (QAnswer.str "A") }
    (by decide) (by decide) (by decide)

/-! ## Claim C7 -/

/-- Claim C7: every emitted record has a non-empty question string after
normalization and a populated answer value.  The question tag's stripped
raw text matches an ordinal pattern, so it holds a digit that entity
decoding and whitespace collapsing cannot erase; both emitting branches
set the answer. -/
theorem C7_record_invariant (root : HNode) (r : Record)
    (h : r ∈ extract_quiz_data root) :
    r.question ≠ "" ∧ r.answer.isSome = true := by
  unfold extract_quiz_data at h
  obtain ⟨e, rest, hpe⟩ := mem_extractAux _ h
  cases hqt : questionTagOf root e with
  | none =>
    rw [processElement_none_tag hqt] at hpe
    simp at hpe
  | some qt =>
    have hg := emitted_guard hqt hpe
    rw [processElement_eq hqt hg] at hpe
    obtain ⟨hque, hans⟩ := classifyEmit_some hpe
    refine ⟨?_, hans⟩
    rw [hque]
    apply String_ne_empty_of_data
    apply assembleQuestion_ne
    show cleanTextChars (textAt root qt) ≠ []
    exact cleanText_ne_nil_of_ordinal hg

/-- Claim C7, witness: the invariant applied to a concrete emitted
record. -/
theorem C7_record_invariant_witness :
    ({ question := "1. Why?", choices := some ["A"],
       answer := some (QAnswer.str "A") } : Record).question ≠ "" ∧
    ({ question := "1. Why?", choices := some ["A"],
       answer := some (QAnswer.str "A") } : Record).answer.isSome = true :=
  C7_record_invariant C7wtree
    { question := "1. Why?", choices := some ["A"],
      answer := some (QAnswer.str "A") }
    (by decide)

/-! ## Claim C8 -/

/-- Claim C8, counterexample: the colour search at line 161 asks only for
`span` and `strong` descendants, not for the `b` spelling.  A list item
whose colour marker sits on a `b` element is not collected — the record
falls back to the unknown sentinel although the item carries a colour
declaration on an emphasis element. -/
theorem C8_counterexample :
    extract_quiz_data C8tree =
      [{ question := "3. Pick", choices := some ["Alpha", "Beta"],
         answer := some (QAnswer.str "Unknown") }] ∧
    (scanOf C8tree [0]).correct = [] ∧
    (subtreeFindAll C8tree [1, 0] ["span", "strong", "b"]).any
      (styleHasColor C8tree) = true ∧
    (subtreeFindAll C8tree [1, 0] ["span", "strong"]).any
      (styleHasColor C8tree) = false :=
  ⟨by decide, by decide, by decide, by decide⟩

/-- Claim C8, amended: a non-empty list item is collected as a correct
answer exactly when it has a descendant `span` or `strong` (the `b`
spelling is not checked) whose inline style contains `color:`, or carries
the `correct_answer` class. -/
theorem C8_correct_marker (root : HNode) (lis : List NPath) (st : ScanState) :
    (processLis root lis st).correct =
      st.correct ++ lis.filterMap (fun li =>
        if !(cleanTextChars (textAt root li)).isEmpty &&
            ((subtreeFindAll root li ["span", "strong"]).any (styleHasColor root) ||
             (classesAt root li).contains "correct_answer") then
          some (String.mk (cleanTextChars (textAt root li)))
        else none) := by
  rw [processLis_spec]
  simp only [lisCorrect, liCorrect]

/-! ## Claim C9 -/

/-- Claim C9: the extraction pass returns the input tree unchanged, and a
second run on that tree produces the same record sequence — the embedded
extractor only reads the tree, so determinism and absence of mutation
hold by construction. -/
theorem C9_idempotent (t : HNode) :
    (runExtractor t).2 = t ∧
    (runExtractor ((runExtractor t).2)).1 = (runExtractor t).1 :=
  ⟨rfl, rfl⟩

/-! ## Claim C10 -/

/-- Claim C10: when a choice list was found, no marker was collected, the
initial question text contains no primary phrase but contains one of the
ordering keywords, the record is typed special with the image sentinel
while keeping the full non-empty choice list. -/
theorem C10_secondary_special (root : HNode) (e : NPath) (rest : List NPath)
    (q : String) (r : Record)
    (hq : initQuestionOf root e = some q)
    (hp : containsAny (lowerOf q) primaryKeywords = false)
    (hz : (scanOf root e).correct = [])
    (hk : containsAny (lowerOf q) orderingKeywords = true)
    (hr : processElement root e rest = some r) :
    r.type = some "special" ∧ r.answer = some (.str imgSentinel) ∧
    r.choices = some (scanOf root e).choices ∧ (scanOf root e).choices ≠ [] := by
  have hsec : containsAny (lowerOf q) secondaryKeywords = true := by
    have hdef : secondaryKeywords = "match" :: orderingKeywords := rfl
    unfold containsAny at hk ⊢
    rw [hdef, List.any_cons, hk, Bool.or_true]
  obtain ⟨qt, hqt, rfl⟩ := initQuestion_elim hq
  have hg := emitted_guard hqt hr
  rw [processElement_eq hqt hg] at hr
  obtain ⟨hc, hch, -, -, -, h3, -, -⟩ := classifyEmit_nonprimary hp hr
  obtain ⟨ha, ht⟩ := h3 hz hsec
  exact ⟨ht, ha, hch, hc⟩

/-- Claim C10, witness: a concrete ordering question with an unmarked
list keeps both choices while being typed special. -/
theorem C10_secondary_special_witness :
    (scanOf C10wtree [0]).choices = ["A", "B"] ∧
    ({ question := "4. Put these in order", type := some "special",
       choices := some ["A", "B"],
       answer := some (QAnswer.str imgSentinel) } : Record).type = some "special" :=
  ⟨by decide,
    (C10_secondary_special C10wtree [0] [] "4. Put these in order"
        { question := "4. Put these in order", type := some "special",
          choices := some ["A", "B"], answer := some (QAnswer.str imgSentinel) }
        (by decide) (by decide) (by decide) (by decide) (by decide)).1⟩
